import Mathlib

/-!
Verification development for the `ghi-scraper` repository.

The repository holds two independent implementations of a GitHub issue
scraper:

* `src/ghi_scraper.py` (the "list variant"): pages through the REST
  issues-listing endpoint with a 1-based page index and a fixed page size
  of 100, and writes each returned item to
  `out_dir/{pulls|issues}/{number}.json`.
* `src/ghi_scraper/__main__.py` (the "graph variant"): pages through the
  GraphQL issues connection with an opaque cursor and the `hasNextPage`
  flag, stamps each record with `_format = 2`, and writes it to
  `out_dir/issues/{number}.json`.

This file shallowly embeds the data model and the operations of both
variants — JSON values, Python's `json.dumps(obj, indent=2,
sort_keys=True)` serialization, the per-item writer, the pagination
loops, the `--since` time-spec parsers and the startup sequence of both
`main` functions — and proves the frozen claims about them.

Modelling conventions:

* Time instants are integers (minutes); `datetime.fromisoformat` is an
  abstract parameter `fromiso : String → Option Int` (its internals are
  irrelevant to every claim; only success/failure and the returned
  instant matter), and `datetime.now()` is an explicit `now : Int`
  parameter.  `timedelta(weeks/days/hours/minutes=v)` is `v` times the
  unit length in minutes.
* The filesystem is a pair of a directory-set and a file map
  (path components → contents).  `Path.mkdir(exist_ok=True)` adds the
  directory; it requires the parent output directory to be present
  (Python raises `FileNotFoundError` otherwise).  `Path.write_text`
  truncates/overwrites unconditionally, which `upd` models.
* A raised Python exception (`KeyError` on a record without a
  `"number"`/`"title"` key, `ValueError` from tuple unpacking) is an
  explicit `crash`/failure outcome; writes performed before the raise
  are kept.
* JSON numbers are modelled as integers (every numeric field the
  scraper touches — the item `number` — is an integer in the GitHub
  schema); `re`'s `\d` is modelled as the ASCII digits (Python's `int`
  accepts exactly the strings of digits the pattern captures).
-/

namespace GhiScraper

/-- JSON values as decoded by `json` / the GraphQL client.  Numbers are
modelled as integers (see the header). -/
inductive Json where
  | null : Json
  | bool (b : Bool) : Json
  | num (n : Int) : Json
  | str (s : String) : Json
  | arr (elements : List Json) : Json
  | obj (members : List (String × Json)) : Json

/-- A decoded item record (a Python `dict` from field names to JSON
values, in insertion order). -/
abbrev Item := List (String × Json)

/-- `dct[k]` as a total lookup: `some` the first binding of `k`, `none`
when the key is absent (where Python would raise `KeyError`). -/
def lookupKey (k : String) : Item → Option Json
  | [] => none
  | (k', v) :: rest => if k' = k then some v else lookupKey k rest

/-- `dct[k] = v` (Python dict assignment): replace the binding in place
when the key is present, append it otherwise. -/
def setKey (dct : Item) (k : String) (v : Json) : Item :=
  match dct with
  | [] => [(k, v)]
  | (k', v') :: rest =>
      if k' = k then (k', v) :: rest else (k', v') :: setKey rest k v

/-- `is_pull_request` (both sources): `"pull_request" in dct`. -/
def is_pull_request (dct : Item) : Bool :=
  (lookupKey "pull_request" dct).isSome

/-! ## `json.dumps(obj, indent=2, sort_keys=True)` -/

/-- Code-point lexicographic order on strings — Python's `str` `<`,
used by `sort_keys=True`. -/
def lexLt : List Char → List Char → Bool
  | [], [] => false
  | [], _ :: _ => true
  | _ :: _, [] => false
  | a :: as, b :: bs =>
      if a.toNat < b.toNat then true
      else if b.toNat < a.toNat then false
      else lexLt as bs

/-- Stable insertion of one key/value pair into a key-sorted list. -/
def insertPair (p : String × Json) : List (String × Json) → List (String × Json)
  | [] => [p]
  | q :: qs => if lexLt p.1.data q.1.data then p :: q :: qs else q :: insertPair p qs

/-- Stable insertion sort by key — the order `sort_keys=True` emits
members in. -/
def sortPairs : List (String × Json) → List (String × Json)
  | [] => []
  | p :: ps => insertPair p (sortPairs ps)

mutual

/-- Recursively sort every object's members by key (the effect of
`sort_keys=True` at every nesting level). -/
def sortJson : Json → Json
  | .obj ms => .obj (sortPairs (sortMembers ms))
  | .arr xs => .arr (sortElems xs)
  | j => j

/-- `sortJson` mapped over an object's values. -/
def sortMembers : List (String × Json) → List (String × Json)
  | [] => []
  | (k, v) :: ms => (k, sortJson v) :: sortMembers ms

/-- `sortJson` mapped over an array's elements. -/
def sortElems : List Json → List Json
  | [] => []
  | x :: xs => sortJson x :: sortElems xs

end

/-- One of the 16 lowercase hex digits. -/
def hexDigit (n : Nat) : Char :=
  if n < 10 then Char.ofNat (48 + n) else Char.ofNat (87 + n)

/-- A `\uXXXX` escape for a code unit below `0x10000`. -/
def uEsc (n : Nat) : String :=
  "\\u" ++ String.mk [hexDigit (n / 4096 % 16), hexDigit (n / 256 % 16),
                      hexDigit (n / 16 % 16), hexDigit (n % 16)]

/-- `json.dumps` escaping of a single character with the default
`ensure_ascii=True`: the two-character escapes for `"` `\` and the
control shortcuts, `\uXXXX` for every other character outside
`0x20`–`0x7e`, surrogate pairs above `0xffff`. -/
def quoteChar (c : Char) : String :=
  if c = '"' then "\\\""
  else if c = '\\' then "\\\\"
  else if c.toNat = 10 then "\\n"
  else if c.toNat = 13 then "\\r"
  else if c.toNat = 9 then "\\t"
  else if c.toNat = 8 then "\\b"
  else if c.toNat = 12 then "\\f"
  else if c.toNat < 32 then uEsc c.toNat
  else if c.toNat < 127 then String.mk [c]
  else if c.toNat ≤ 65535 then uEsc c.toNat
  else
    uEsc (55296 + (c.toNat - 65536) / 1024) ++ uEsc (56320 + (c.toNat - 65536) % 1024)

/-- A JSON string literal for `s`. -/
def quoteStr (s : String) : String :=
  "\"" ++ String.join (s.data.map quoteChar) ++ "\""

/-- `indent=2`: the indentation prefix at nesting level `lv`. -/
def indentStr (lv : Nat) : String :=
  String.mk (List.replicate (2 * lv) ' ')

mutual

/-- Serialize one (already key-sorted) JSON value at nesting level `lv`,
exactly as `json.dumps(·, indent=2)` renders it: items separated by
`",\n"`, key/value separated by `": "`, empty containers on one line. -/
def dumpVal : Json → Nat → String
  | .null, _ => "null"
  | .bool true, _ => "true"
  | .bool false, _ => "false"
  | .num n, _ => toString n
  | .str s, _ => quoteStr s
  | .arr [], _ => "[]"
  | .arr (x :: xs), lv =>
      "[\n" ++ dumpElems (x :: xs) (lv + 1) ++ "\n" ++ indentStr lv ++ "]"
  | .obj [], _ => "\x7b\x7d"
  | .obj (m :: ms), lv =>
      "\x7b\n" ++ dumpMembers (m :: ms) (lv + 1) ++ "\n" ++ indentStr lv ++ "\x7d"

/-- The comma-and-newline separated elements of a non-empty array. -/
def dumpElems : List Json → Nat → String
  | [], _ => ""
  | [x], lv => indentStr lv ++ dumpVal x lv
  | x :: y :: xs, lv =>
      indentStr lv ++ dumpVal x lv ++ ",\n" ++ dumpElems (y :: xs) lv

/-- The comma-and-newline separated members of a non-empty object. -/
def dumpMembers : List (String × Json) → Nat → String
  | [], _ => ""
  | [(k, v)], lv => indentStr lv ++ quoteStr k ++ ": " ++ dumpVal v lv
  | (k, v) :: m :: ms, lv =>
      indentStr lv ++ quoteStr k ++ ": " ++ dumpVal v lv ++ ",\n" ++ dumpMembers (m :: ms) lv

end

/-- `json.dumps(dct, indent=2, sort_keys=True)` for an item record. -/
def dumps (dct : Item) : String :=
  dumpVal (sortJson (Json.obj dct)) 0

/-! ## Filesystem model -/

/-- A path, as its components.  Every path the scraper touches is
`[out_dir]`, `[out_dir, sub_dir]` or `[out_dir, sub_dir, file]`; the
user-supplied `out_dir` string is kept opaque as a single component. -/
abbrev Path := List String

/-- The local filesystem: which directories exist, and the text content
of each existing file. -/
structure FS where
  dirs : Path → Bool
  files : Path → Option String

/-- `Path.write_text`: unconditional truncate/overwrite of one file. -/
def upd (files : Path → Option String) (p : Path) (text : String) : Path → Option String :=
  fun q => if q = p then some text else files q

/-- `Path.mkdir(exist_ok=True)`: add one directory (idempotent). -/
def addDir (ds : Path → Bool) (p : Path) : Path → Bool :=
  fun q => if q = p then true else ds q

/-! ## The per-item writer

Both variants run the same item-writing block (list variant
`ghi_scraper.py:66`–`75`, graph variant `__main__.py:106`–`117`); they
differ only in how the destination subdirectory is chosen and in the
graph variant stamping `dct[FORMAT_KEY] = FORMAT` first.  The block is
therefore embedded once, parameterized by `sub` (the subdirectory
chosen for a record) and `recOf` (the record actually serialized:
`id` for the list variant, the `_format` stamping for the graph
variant). -/

section Writer

variable (outDir : String) (sub : Item → String) (recOf : Item → Item)

/-- The filesystem-independent part of processing one item: the chosen
subdirectory, and — when the record has the `"number"` (an integer) and
`"title"` keys the code reads — the file name `f"{item_id}.json"` and
the serialized text.  `none` in the second component is the `KeyError`
raise, which happens after `item_dir.mkdir` but before `write_text`. -/
def item_plan (d : Item) : String × Option (String × String) :=
  let dct := recOf d
  let sd := sub dct
  match lookupKey "number" dct with
  | some (Json.num n) =>
      match lookupKey "title" dct with
      | some _ => (sd, some (toString n ++ ".json", dumps dct))
      | none => (sd, none)
  | _ => (sd, none)

/-- The full path an item would be written to, when it is writable. -/
def planPath (d : Item) : Option Path :=
  match item_plan sub recOf d with
  | (sd, some (fn, _)) => some [outDir, sd, fn]
  | _ => none

/-- Process one item against the filesystem: `item_dir.mkdir(exist_ok=True)`
(which needs the output directory to exist), then
`item_path.write_text(text)`.  The second component is `false` when the
iteration raises (missing parent directory, or `KeyError` — in which
case the `mkdir` has still happened). -/
def item_step (fs : FS) (d : Item) : FS × Bool :=
  if fs.dirs [outDir] = true then
    match item_plan sub recOf d with
    | (sd, some (fn, text)) =>
        (⟨addDir fs.dirs [outDir, sd], upd fs.files [outDir, sd, fn] text⟩, true)
    | (sd, none) =>
        (⟨addDir fs.dirs [outDir, sd], fs.files⟩, false)
  else (fs, false)

/-- The `for dct in lst:` loop over one page's items.  Stops at the
first raising item (second component `false`), keeping what was already
written. -/
def write_items (fs : FS) : List Item → FS × Bool
  | [] => (fs, true)
  | d :: rest =>
      let r := item_step outDir sub recOf fs d
      if r.2 = true then write_items r.1 rest else r

end Writer

/-! ## List variant (`src/ghi_scraper.py`) -/

/-- `PAGE_SIZE = 100`. -/
def PAGE_SIZE : Nat := 100

/-- `sub_dir = "pulls" if is_pull_request(dct) else "issues"`. -/
def list_sub (dct : Item) : String :=
  if is_pull_request dct then "pulls" else "issues"

/-- `scrap_page` of the list variant, given the decoded response array
`lst` for the requested page: `if not lst: return False`; otherwise
write every item and `return len(lst) == PAGE_SIZE`.  `none` in the
second component is an unhandled exception inside the item loop. -/
def scrap_page (outDir : String) (fs : FS) (lst : List Item) : FS × Option Bool :=
  if lst.isEmpty then (fs, some false)
  else if (write_items outDir list_sub id fs lst).2 = true then
    ((write_items outDir list_sub id fs lst).1, some (decide (lst.length = PAGE_SIZE)))
  else ((write_items outDir list_sub id fs lst).1, none)

/-- How a whole run ended. -/
inductive RunExit where
  | normal : RunExit
  | crashed : RunExit
  | fuelOut : RunExit
deriving DecidableEq

/-- `scrap` of the list variant: `for page in count(1): if not
scrap_page(info, page): return`.  `pages` is the remote end (the decoded
array each page request returns), `fuel` bounds the unrolling of the
unbounded `count(1)` loop.  Returns the final filesystem, the list of
page indices requested (in order) and how the run ended. -/
def scrap_loop (outDir : String) (pages : Nat → List Item) :
    Nat → Nat → FS → FS × List Nat × RunExit
  | 0, _, fs => (fs, [], .fuelOut)
  | fuel + 1, p, fs =>
      match scrap_page outDir fs (pages p) with
      | (fs1, none) => (fs1, [p], .crashed)
      | (fs1, some false) => (fs1, [p], .normal)
      | (fs1, some true) =>
          let r := scrap_loop outDir pages fuel (p + 1) fs1
          (r.1, p :: r.2.1, r.2.2)

/-- A full list-variant run starts at page 1. -/
def scrap (outDir : String) (pages : Nat → List Item) (fuel : Nat) (fs : FS) :
    FS × List Nat × RunExit :=
  scrap_loop outDir pages fuel 1 fs

/-! ## Graph variant (`src/ghi_scraper/__main__.py`) -/

/-- `FORMAT_KEY = "_format"`. -/
def FORMAT_KEY : String := "_format"

/-- `FORMAT = 2`. -/
def FORMAT : Int := 2

/-- The graph variant always files records under `"issues"`. -/
def graph_sub (_ : Item) : String := "issues"

/-- `dct[FORMAT_KEY] = FORMAT`, performed before the record is used. -/
def graph_rec (dct : Item) : Item :=
  setKey dct FORMAT_KEY (Json.num FORMAT)

/-- Python's `project.split("/")` on the character list of the string
(split at every slash; `n` slashes give `n + 1` parts). -/
def splitSlash : List Char → List (List Char)
  | [] => [[]]
  | c :: cs =>
      if c = '/' then [] :: splitSlash cs
      else
        match splitSlash cs with
        | [] => [[c]]
        | p :: ps => (c :: p) :: ps

/-- The number of `'/'` characters in a string's characters. -/
def countSlash : List Char → Nat
  | [] => 0
  | c :: cs => (if c = '/' then 1 else 0) + countSlash cs

/-- The decoded `result["repository"]["issues"]` of one GraphQL
response: the edges' `node` records, and the `pageInfo` fields.
`endCursor` is modelled as a present string (GitHub returns a non-null
`endCursor` alongside the pages the scraper walks). -/
structure GPage where
  edges : List Item
  hasNextPage : Bool
  endCursor : String

/-- How one graph-variant page iteration ended: an unpacking `ValueError`
before the request was issued, an exception after it, a normal `return
None`, or `return page_info["endCursor"]`. -/
inductive GStep where
  | crashNoRequest : GStep
  | crashAfter : GStep
  | stop : GStep
  | next (c : String) : GStep

/-- `scrap_page` of the graph variant, given the decoded `page` its
request returns: `owner, name = info.project.split("/")` (raising
before the request when the project does not split into exactly two
parts), then `client.execute`, then write every edge's node, then
`return page_info["endCursor"] if page_info["hasNextPage"] else None`. -/
def gscrap_page (project outDir : String) (fs : FS) (page : GPage) : FS × GStep :=
  match splitSlash project.data with
  | [_, _] =>
      if (write_items outDir graph_sub graph_rec fs page.edges).2 = true then
        ((write_items outDir graph_sub graph_rec fs page.edges).1,
          if page.hasNextPage then .next page.endCursor else .stop)
      else ((write_items outDir graph_sub graph_rec fs page.edges).1, .crashAfter)
  | _ => (fs, .crashNoRequest)

/-- `scrap` of the graph variant: `cursor = None; while True: cursor =
scrap_page(client, info, cursor); if cursor is None: return`.  `pages`
is the remote end (the decoded page each issued request returns, by
cursor).  Returns the final filesystem, the list of cursors actually
requested (in order) and how the run ended. -/
def gscrap_loop (project outDir : String) (pages : Option String → GPage) :
    Nat → Option String → FS → FS × List (Option String) × RunExit
  | 0, _, fs => (fs, [], .fuelOut)
  | fuel + 1, cursor, fs =>
      match gscrap_page project outDir fs (pages cursor) with
      | (fs1, .crashNoRequest) => (fs1, [], .crashed)
      | (fs1, .crashAfter) => (fs1, [cursor], .crashed)
      | (fs1, .stop) => (fs1, [cursor], .normal)
      | (fs1, .next c) =>
          let r := gscrap_loop project outDir pages fuel (some c) fs1
          (r.1, cursor :: r.2.1, r.2.2)

/-- A full graph-variant run starts with an absent cursor. -/
def gscrap (project outDir : String) (pages : Option String → GPage) (fuel : Nat)
    (fs : FS) : FS × List (Option String) × RunExit :=
  gscrap_loop project outDir pages fuel none fs

/-! ## `parse_since` (list variant `ghi_scraper.py:96`–`118`, graph
variant `__main__.py:144`–`164`) -/

/-- The numeric value of a string of decimal digits (`int(match.group(1))`). -/
def digitsVal (ds : List Char) : Nat :=
  ds.foldl (fun acc c => acc * 10 + (c.toNat - 48)) 0

/-- `re.fullmatch(r"(\d+)([units])", s)` on the reversed characters of
`s`: the last character must be one of the unit letters and everything
before it a non-empty run of digits. -/
def matchRelAux (units : List Char) : List Char → Option (Nat × Char)
  | [] => none
  | u :: rds =>
      if u ∈ units ∧ rds ≠ [] ∧ rds.all Char.isDigit = true then
        some (digitsVal rds.reverse, u)
      else none

/-- `re.fullmatch(r"(\d+)([units])", s)`, returning the captured value
and unit letter. -/
def matchRelative (units : List Char) (s : String) : Option (Nat × Char) :=
  matchRelAux units s.data.reverse

/-- A minute, as the time unit of the model. -/
def MINUTE : Int := 1

/-- `timedelta(hours=1)` in minutes. -/
def HOUR : Int := 60

/-- `timedelta(days=1)` in minutes. -/
def DAY : Int := 60 * 24

/-- `timedelta(weeks=1)` in minutes. -/
def WEEK : Int := 60 * 24 * 7

/-- The unit letters of the list variant's pattern `(\d+)([wdHM])`. -/
def unitsList : List Char := ['w', 'd', 'H', 'M']

/-- The unit letters of the graph variant's pattern `(\d+)([wdh])`. -/
def unitsGraph : List Char := ['w', 'd', 'h']

/-- `sys.exit(f"'{since}' is not a valid date")`'s message. -/
def invalidDateMsg (s : String) : String :=
  "'" ++ s ++ "' is not a valid date"

/-- How `parse_since` ends: a parsed instant, `sys.exit(msg)`, or the
`raise NotImplementedError` branch. -/
inductive SinceResult where
  | ok (t : Int) : SinceResult
  | exitErr (msg : String) : SinceResult
  | notImpl : SinceResult
deriving DecidableEq

/-- `parse_since` of the list variant: try `datetime.fromisoformat`
(the abstract `fromiso`); on failure match `(\d+)([wdHM])`, exiting
when there is no match; then `datetime.now() - delta` by unit letter. -/
def list_parse_since (fromiso : String → Option Int) (now : Int) (s : String) :
    SinceResult :=
  match fromiso s with
  | some t => .ok t
  | none =>
      match matchRelative unitsList s with
      | none => .exitErr (invalidDateMsg s)
      | some (v, u) =>
          if u = 'w' then .ok (now - (v : Int) * WEEK)
          else if u = 'd' then .ok (now - (v : Int) * DAY)
          else if u = 'H' then .ok (now - (v : Int) * HOUR)
          else if u = 'M' then .ok (now - (v : Int) * MINUTE)
          else .notImpl

/-- `parse_since` of the graph variant: the same, with the pattern
`(\d+)([wdh])` and only weeks/days/hours cases. -/
def graph_parse_since (fromiso : String → Option Int) (now : Int) (s : String) :
    SinceResult :=
  match fromiso s with
  | some t => .ok t
  | none =>
      match matchRelative unitsGraph s with
      | none => .exitErr (invalidDateMsg s)
      | some (v, u) =>
          if u = 'w' then .ok (now - (v : Int) * WEEK)
          else if u = 'd' then .ok (now - (v : Int) * DAY)
          else if u = 'h' then .ok (now - (v : Int) * HOUR)
          else .notImpl

/-! ## The startup sequence of both `main` functions

The models cover everything `main` does after argument parsing and up
to the call of `scrap` (the scrape itself is modelled by the loops
above).  `outDirIsDir` is `Path(args.out_dir).is_dir()`; the project
string is carried to show it is never examined before scraping. -/

/-- Externally visible milestones of a `main` run before scraping. -/
inductive Ev where
  | clientConstructed : Ev
  | scrapCalled : Ev
deriving DecidableEq

/-- How a `main` run ends (within the modelled prefix):
`sys.exit(msg)` (which prints `msg` and exits with status 1), a
logged-error `return code`, reaching the `scrap(...)` call with the
resolved `since` filter, or an unhandled exception. -/
inductive Outcome where
  | exit (msg : String) : Outcome
  | errorRet (code : Int) (logged : String) : Outcome
  | scrape (since : Option Int) : Outcome
  | crash : Outcome
deriving DecidableEq

/-- `main` of the list variant (`ghi_scraper.py:121`–`147`): token
check first, then the output-directory check, then `--since` parsing
(an empty `--since` string is falsy and leaves `since = None`), then
`scrap`.  No network client object exists in this variant. -/
def list_main (token _project outDirStr : String) (outDirIsDir : Bool)
    (sinceArg : Option String) (fromiso : String → Option Int) (now : Int) :
    List Ev × Outcome :=
  if token = "" then
    ([], .exit "You must define the $GITHUB_TOKEN environment variable")
  else if outDirIsDir = false then
    ([], .exit (outDirStr ++ " is not a directory"))
  else
    match sinceArg with
    | none => ([.scrapCalled], .scrape none)
    | some s =>
        if s = "" then ([.scrapCalled], .scrape none)
        else
          match list_parse_since fromiso now s with
          | .ok t => ([.scrapCalled], .scrape (some t))
          | .exitErr m => ([], .exit m)
          | .notImpl => ([], .crash)

/-- `main` of the graph variant (`__main__.py:177`–`212`): the
output-directory check, then the token check (`logger.error` and
`return 1` when absent), then `create_client` — so the token check
precedes client construction — then `--since` parsing, then `scrap`. -/
def graph_main (token _project outDirStr : String) (outDirIsDir : Bool)
    (sinceArg : Option String) (fromiso : String → Option Int) (now : Int) :
    List Ev × Outcome :=
  if outDirIsDir = false then
    ([], .exit (outDirStr ++ " is not a directory"))
  else if token = "" then
    ([], .errorRet 1 "$GITHUB_TOKEN environment variable not set")
  else
    match sinceArg with
    | none => ([.clientConstructed, .scrapCalled], .scrape none)
    | some s =>
        if s = "" then ([.clientConstructed, .scrapCalled], .scrape none)
        else
          match graph_parse_since fromiso now s with
          | .ok t => ([.clientConstructed, .scrapCalled], .scrape (some t))
          | .exitErr m => ([.clientConstructed], .exit m)
          | .notImpl => ([.clientConstructed], .crash)

/-! ## Lemmas about the writer -/

/-- Relation between two runs of the same writes started from `f0` and
`g0`: at every path either both runs have produced the same content, or
neither has touched the path. -/
def FilesRel (f0 g0 f g : FS) : Prop :=
  ∀ p : Path, g.files p = f.files p ∨ (g.files p = g0.files p ∧ f.files p = f0.files p)

theorem filesRel_refl (f0 g0 : FS) : FilesRel f0 g0 f0 g0 :=
  fun _ => Or.inr ⟨rfl, rfl⟩

theorem filesRel_trans {f0 g0 f1 g1 f2 g2 : FS}
    (h1 : FilesRel f0 g0 f1 g1) (h2 : FilesRel f1 g1 f2 g2) :
    FilesRel f0 g0 f2 g2 := by
  intro p
  rcases h2 p with h | ⟨hg, hf⟩
  · exact Or.inl h
  · rcases h1 p with h' | ⟨hg', hf'⟩
    · exact Or.inl (by rw [hg, hf, h'])
    · exact Or.inr ⟨by rw [hg, hg'], by rw [hf, hf']⟩

section WriterLemmas

variable (outDir : String) (sub : Item → String) (recOf : Item → Item)

theorem item_step_dirs_mono (fs : FS) (d : Item) (q : Path)
    (hq : fs.dirs q = true) :
    ((item_step outDir sub recOf fs d).1).dirs q = true := by
  unfold item_step
  by_cases hd : fs.dirs [outDir] = true
  · rw [if_pos hd]
    rcases hp : item_plan sub recOf d with ⟨sd, fo⟩
    cases fo with
    | none =>
        simp only [addDir]
        by_cases hq' : q = [outDir, sd] <;> simp [hq', hq]
    | some ft =>
        rcases ft with ⟨fn, text⟩
        simp only [addDir]
        by_cases hq' : q = [outDir, sd] <;> simp [hq', hq]
  · rw [if_neg hd]
    exact hq

theorem item_step_files_untouched (fs : FS) (d : Item) (p : Path)
    (hp : planPath outDir sub recOf d ≠ some p) :
    ((item_step outDir sub recOf fs d).1).files p = fs.files p := by
  unfold item_step
  by_cases hd : fs.dirs [outDir] = true
  · rw [if_pos hd]
    rcases hpl : item_plan sub recOf d with ⟨sd, fo⟩
    cases fo with
    | none => simp
    | some ft =>
        rcases ft with ⟨fn, text⟩
        have hne : p ≠ [outDir, sd, fn] := by
          intro hcontra
          apply hp
          unfold planPath
          rw [hpl, hcontra]
        simp only [upd]
        rw [if_neg hne]
  · rw [if_neg hd]

theorem item_step_ok_core (fs : FS) (d : Item)
    (h : (item_step outDir sub recOf fs d).2 = true) :
    fs.dirs [outDir] = true ∧
    ∃ sd fn text, item_plan sub recOf d = (sd, some (fn, text)) ∧
      (item_step outDir sub recOf fs d).1 =
        ⟨addDir fs.dirs [outDir, sd], upd fs.files [outDir, sd, fn] text⟩ := by
  rcases hpl : item_plan sub recOf d with ⟨sd, fo⟩
  unfold item_step at h ⊢
  rw [hpl] at h ⊢
  by_cases hd : fs.dirs [outDir] = true
  · rw [if_pos hd] at h ⊢
    cases fo with
    | none => simp at h
    | some ft =>
        rcases ft with ⟨fn, text⟩
        exact ⟨hd, sd, fn, text, rfl, rfl⟩
  · rw [if_neg hd] at h
    simp at h

theorem item_step_eq (fs : FS) (d : Item) (sd fn text : String)
    (hd : fs.dirs [outDir] = true)
    (hpl : item_plan sub recOf d = (sd, some (fn, text))) :
    item_step outDir sub recOf fs d =
      (⟨addDir fs.dirs [outDir, sd], upd fs.files [outDir, sd, fn] text⟩, true) := by
  unfold item_step
  rw [if_pos hd, hpl]

theorem write_items_cons_ok (fs : FS) (d : Item) (rest : List Item)
    (h : (item_step outDir sub recOf fs d).2 = true) :
    write_items outDir sub recOf fs (d :: rest) =
      write_items outDir sub recOf (item_step outDir sub recOf fs d).1 rest := by
  simp only [write_items]
  rw [if_pos h]

theorem write_items_cons_fail (fs : FS) (d : Item) (rest : List Item)
    (h : (item_step outDir sub recOf fs d).2 = false) :
    write_items outDir sub recOf fs (d :: rest) =
      ((item_step outDir sub recOf fs d).1, false) := by
  simp only [write_items]
  rw [if_neg (by simp [h]), ← h]

theorem write_items_ok_head (fs : FS) (d : Item) (rest : List Item)
    (h : (write_items outDir sub recOf fs (d :: rest)).2 = true) :
    (item_step outDir sub recOf fs d).2 = true := by
  by_cases hs : (item_step outDir sub recOf fs d).2 = true
  · exact hs
  · rw [write_items_cons_fail outDir sub recOf fs d rest (by simpa using hs)] at h
    simp at h

theorem write_items_dirs_mono (l : List Item) :
    ∀ (fs : FS) (q : Path), fs.dirs q = true →
      ((write_items outDir sub recOf fs l).1).dirs q = true := by
  induction l with
  | nil => intro fs q hq; simpa [write_items] using hq
  | cons d rest ih =>
      intro fs q hq
      by_cases hs : (item_step outDir sub recOf fs d).2 = true
      · rw [write_items_cons_ok outDir sub recOf fs d rest hs]
        exact ih _ q (item_step_dirs_mono outDir sub recOf fs d q hq)
      · rw [write_items_cons_fail outDir sub recOf fs d rest (by simpa using hs)]
        exact item_step_dirs_mono outDir sub recOf fs d q hq

theorem write_items_untouched (l : List Item) :
    ∀ (fs : FS) (p : Path),
      (∀ d ∈ l, planPath outDir sub recOf d ≠ some p) →
      ((write_items outDir sub recOf fs l).1).files p = fs.files p := by
  induction l with
  | nil => intro fs p _; simp [write_items]
  | cons d rest ih =>
      intro fs p hnone
      have hd := hnone d (List.mem_cons_self d rest)
      by_cases hs : (item_step outDir sub recOf fs d).2 = true
      · rw [write_items_cons_ok outDir sub recOf fs d rest hs]
        rw [ih _ p (fun d' hd' => hnone d' (List.mem_cons_of_mem d hd'))]
        exact item_step_files_untouched outDir sub recOf fs d p hd
      · rw [write_items_cons_fail outDir sub recOf fs d rest (by simpa using hs)]
        exact item_step_files_untouched outDir sub recOf fs d p hd

theorem write_items_append_ok (l1 l2 : List Item) :
    ∀ fs : FS, (write_items outDir sub recOf fs l1).2 = true →
      write_items outDir sub recOf fs (l1 ++ l2) =
        write_items outDir sub recOf (write_items outDir sub recOf fs l1).1 l2 := by
  induction l1 with
  | nil => intro fs _; simp [write_items]
  | cons d rest ih =>
      intro fs h
      have hs := write_items_ok_head outDir sub recOf fs d rest h
      rw [write_items_cons_ok outDir sub recOf fs d rest hs] at h
      rw [List.cons_append, write_items_cons_ok outDir sub recOf fs d (rest ++ l2) hs,
        ih _ h, write_items_cons_ok outDir sub recOf fs d rest hs]

theorem write_items_prefix_ok (l1 l2 : List Item) :
    ∀ fs : FS, (write_items outDir sub recOf fs (l1 ++ l2)).2 = true →
      (write_items outDir sub recOf fs l1).2 = true := by
  induction l1 with
  | nil => intro fs _; rfl
  | cons d rest ih =>
      intro fs h
      rw [List.cons_append] at h
      have hs := write_items_ok_head outDir sub recOf fs d (rest ++ l2) h
      rw [write_items_cons_ok outDir sub recOf fs d (rest ++ l2) hs] at h
      rw [write_items_cons_ok outDir sub recOf fs d rest hs]
      exact ih _ h

theorem write_items_changed (l : List Item) :
    ∀ (fs : FS) (p : Path),
      ((write_items outDir sub recOf fs l).1).files p ≠ fs.files p →
      ∃ d ∈ l, ∃ sd fn text,
        item_plan sub recOf d = (sd, some (fn, text)) ∧ p = [outDir, sd, fn] ∧
        ((write_items outDir sub recOf fs l).1).files p = some text := by
  induction l with
  | nil => intro fs p h; simp [write_items] at h
  | cons d rest ih =>
      intro fs p h
      by_cases hs : (item_step outDir sub recOf fs d).2 = true
      · rw [write_items_cons_ok outDir sub recOf fs d rest hs] at h ⊢
        rcases item_step_ok_core outDir sub recOf fs d hs with
          ⟨hdirs, sd, fn, text, hpl, hfs1⟩
        by_cases hch :
            ((write_items outDir sub recOf (item_step outDir sub recOf fs d).1 rest).1).files p
              = ((item_step outDir sub recOf fs d).1).files p
        · -- the tail did not change `p`; the head item must have
          rw [hch]
          rw [hch] at h
          rw [hfs1] at h ⊢
          simp only [upd] at h ⊢
          by_cases hpe : p = [outDir, sd, fn]
          · rw [if_pos hpe] at h ⊢
            exact ⟨d, List.mem_cons_self d rest, sd, fn, text, hpl, hpe, rfl⟩
          · rw [if_neg hpe] at h
            exact absurd rfl h
        · rcases ih _ p hch with ⟨d', hd', sd', fn', text', hpl', hpe', hval'⟩
          exact ⟨d', List.mem_cons_of_mem d hd', sd', fn', text', hpl', hpe', hval'⟩
      · rw [write_items_cons_fail outDir sub recOf fs d rest (by simpa using hs)] at h ⊢
        rcases hpl : item_plan sub recOf d with ⟨sd, fo⟩
        unfold item_step at h ⊢
        rw [hpl] at h ⊢
        by_cases hd : fs.dirs [outDir] = true
        · rw [if_pos hd] at h ⊢
          cases fo with
          | none => simp at h
          | some ft =>
              rcases ft with ⟨fn, text⟩
              exact absurd (by unfold item_step; rw [hpl, if_pos hd]) hs
        · rw [if_neg hd] at h
          exact absurd rfl h

theorem write_items_sim (l : List Item) :
    ∀ (fs g : FS), (write_items outDir sub recOf fs l).2 = true →
      (∀ q, fs.dirs q = true → g.dirs q = true) →
      (write_items outDir sub recOf g l).2 = true ∧
      (∀ q, ((write_items outDir sub recOf fs l).1).dirs q = true →
        ((write_items outDir sub recOf g l).1).dirs q = true) ∧
      FilesRel fs g (write_items outDir sub recOf fs l).1
        (write_items outDir sub recOf g l).1 := by
  induction l with
  | nil =>
      intro fs g _ hdirs
      exact ⟨rfl, fun q hq => hdirs q hq, filesRel_refl fs g⟩
  | cons d rest ih =>
      intro fs g hok hdirs
      have hs := write_items_ok_head outDir sub recOf fs d rest hok
      rcases item_step_ok_core outDir sub recOf fs d hs with
        ⟨hd, sd, fn, text, hpl, hfs1⟩
      have hgd : g.dirs [outDir] = true := hdirs [outDir] hd
      have hgstep := item_step_eq outDir sub recOf g d sd fn text hgd hpl
      have hgs : (item_step outDir sub recOf g d).2 = true := by rw [hgstep]
      rw [write_items_cons_ok outDir sub recOf fs d rest hs] at hok ⊢
      rw [write_items_cons_ok outDir sub recOf g d rest hgs]
      have hdirs1 : ∀ q, ((item_step outDir sub recOf fs d).1).dirs q = true →
          ((item_step outDir sub recOf g d).1).dirs q = true := by
        intro q hq
        rw [hfs1] at hq
        rw [hgstep]
        simp only [addDir] at hq ⊢
        by_cases hqe : q = [outDir, sd]
        · rw [if_pos hqe]
        · rw [if_neg hqe] at hq ⊢
          exact hdirs q hq
      rcases ih _ _ hok hdirs1 with ⟨hok', hdirs', hrel'⟩
      refine ⟨hok', hdirs', filesRel_trans ?_ hrel'⟩
      intro p
      rw [hfs1, hgstep]
      simp only [upd]
      by_cases hpe : p = [outDir, sd, fn] <;> simp [hpe]

end WriterLemmas

/-! ## Lemmas about the list-variant loop -/

theorem scrap_page_empty (outDir : String) (fs : FS) :
    scrap_page outDir fs [] = (fs, some false) := rfl

theorem scrap_page_write (outDir : String) (fs : FS) (lst : List Item)
    (hne : lst ≠ []) (hok : (write_items outDir list_sub id fs lst).2 = true) :
    scrap_page outDir fs lst =
      ((write_items outDir list_sub id fs lst).1,
        some (decide (lst.length = PAGE_SIZE))) := by
  unfold scrap_page
  rw [if_neg (by simp [hne]), if_pos hok]

theorem scrap_page_fail (outDir : String) (fs : FS) (lst : List Item)
    (hne : lst ≠ []) (hbad : (write_items outDir list_sub id fs lst).2 = false) :
    scrap_page outDir fs lst = ((write_items outDir list_sub id fs lst).1, none) := by
  unfold scrap_page
  rw [if_neg (by simp [hne]), if_neg (by simp [hbad])]

theorem scrap_page_dirs_mono (outDir : String) (fs : FS) (lst : List Item) (q : Path)
    (hq : fs.dirs q = true) : ((scrap_page outDir fs lst).1).dirs q = true := by
  unfold scrap_page
  by_cases hemp : lst.isEmpty = true
  · rw [if_pos hemp]; exact hq
  · rw [if_neg hemp]
    by_cases hw : (write_items outDir list_sub id fs lst).2 = true
    · rw [if_pos hw]
      exact write_items_dirs_mono outDir list_sub id lst fs q hq
    · rw [if_neg hw]
      exact write_items_dirs_mono outDir list_sub id lst fs q hq

theorem scrap_page_sim (outDir : String) (fs g : FS) (lst : List Item) (fs1 : FS)
    (b : Bool) (h : scrap_page outDir fs lst = (fs1, some b))
    (hdirs : ∀ q, fs.dirs q = true → g.dirs q = true) :
    ∃ g1, scrap_page outDir g lst = (g1, some b) ∧
      (∀ q, fs1.dirs q = true → g1.dirs q = true) ∧ FilesRel fs g fs1 g1 := by
  unfold scrap_page at h ⊢
  by_cases hemp : lst.isEmpty = true
  · rw [if_pos hemp] at h ⊢
    obtain ⟨rfl, rfl⟩ : fs = fs1 ∧ false = b := by
      constructor <;> [exact congrArg Prod.fst h;
        exact Option.some.inj (congrArg Prod.snd h)]
    exact ⟨g, rfl, hdirs, filesRel_refl fs g⟩
  · rw [if_neg hemp] at h ⊢
    by_cases hw : (write_items outDir list_sub id fs lst).2 = true
    · rw [if_pos hw] at h
      obtain ⟨rfl, rfl⟩ :
          (write_items outDir list_sub id fs lst).1 = fs1 ∧
            decide (lst.length = PAGE_SIZE) = b := by
        constructor <;> [exact congrArg Prod.fst h;
          exact Option.some.inj (congrArg Prod.snd h)]
      rcases write_items_sim outDir list_sub id lst fs g hw hdirs with ⟨hok', hdirs', hrel'⟩
      rw [if_pos hok']
      exact ⟨(write_items outDir list_sub id g lst).1, rfl, hdirs', hrel'⟩
    · rw [if_neg hw] at h
      exact absurd (congrArg Prod.snd h) (by simp)

theorem scrap_loop_succ (outDir : String) (pages : Nat → List Item) (fuel p : Nat)
    (fs : FS) :
    scrap_loop outDir pages (fuel + 1) p fs =
      match scrap_page outDir fs (pages p) with
      | (fs1, none) => (fs1, [p], .crashed)
      | (fs1, some false) => (fs1, [p], .normal)
      | (fs1, some true) =>
          let r := scrap_loop outDir pages fuel (p + 1) fs1
          (r.1, p :: r.2.1, r.2.2) := rfl

theorem scrap_loop_head (outDir : String) (pages : Nat → List Item) (fuel p : Nat)
    (fs : FS) : ((scrap_loop outDir pages (fuel + 1) p fs).2.1).head? = some p := by
  rw [scrap_loop_succ]
  rcases hsp : scrap_page outDir fs (pages p) with ⟨fs1, ob⟩
  rcases ob with _ | b
  · rfl
  · cases b <;> rfl

theorem scrap_loop_dirs_mono (outDir : String) (pages : Nat → List Item) :
    ∀ (fuel p : Nat) (fs : FS) (q : Path), fs.dirs q = true →
      ((scrap_loop outDir pages fuel p fs).1).dirs q = true := by
  intro fuel
  induction fuel with
  | zero => intro p fs q hq; exact hq
  | succ fuel ih =>
      intro p fs q hq
      rw [scrap_loop_succ]
      rcases hsp : scrap_page outDir fs (pages p) with ⟨fs1, ob⟩
      have h1 : fs1.dirs q = true := by
        have h2 := scrap_page_dirs_mono outDir fs (pages p) q hq
        rw [hsp] at h2
        exact h2
      rcases ob with _ | b
      · exact h1
      · cases b
        · exact h1
        · exact ih (p + 1) fs1 q h1

theorem scrap_loop_sim (outDir : String) (pages : Nat → List Item) :
    ∀ (fuel p : Nat) (fs g fs' : FS) (ps : List Nat),
      scrap_loop outDir pages fuel p fs = (fs', ps, .normal) →
      (∀ q, fs.dirs q = true → g.dirs q = true) →
      ∃ g', scrap_loop outDir pages fuel p g = (g', ps, .normal) ∧
        (∀ q, fs'.dirs q = true → g'.dirs q = true) ∧ FilesRel fs g fs' g' := by
  intro fuel
  induction fuel with
  | zero =>
      intro p fs g fs' ps h _
      exact absurd (congrArg (fun x => x.2.2) h) (by simp [scrap_loop])
  | succ fuel ih =>
      intro p fs g fs' ps h hdirs
      rw [scrap_loop_succ] at h
      rcases hsp : scrap_page outDir fs (pages p) with ⟨fs1, ob⟩
      rw [hsp] at h
      rcases ob with _ | b
      · exact absurd (congrArg (fun x => x.2.2) h) (by simp)
      · rcases scrap_page_sim outDir fs g (pages p) fs1 b hsp hdirs with
          ⟨g1, hg1, hdirs1, hrel1⟩
        cases b
        · obtain ⟨rfl, rfl⟩ : fs1 = fs' ∧ [p] = ps := by
            constructor <;> [exact congrArg Prod.fst h;
              exact congrArg (fun x => x.2.1) h]
          exact ⟨g1, by rw [scrap_loop_succ, hg1], hdirs1, hrel1⟩
        · have hfs' : (scrap_loop outDir pages fuel (p + 1) fs1).1 = fs' :=
            congrArg Prod.fst h
          have hps : p :: (scrap_loop outDir pages fuel (p + 1) fs1).2.1 = ps :=
            congrArg (fun x => x.2.1) h
          have hex : (scrap_loop outDir pages fuel (p + 1) fs1).2.2 = .normal :=
            congrArg (fun x => x.2.2) h
          have hrec : scrap_loop outDir pages fuel (p + 1) fs1 =
              (fs', (scrap_loop outDir pages fuel (p + 1) fs1).2.1, .normal) := by
            rw [← hfs', ← hex]
          rcases ih (p + 1) fs1 g1 fs' (scrap_loop outDir pages fuel (p + 1) fs1).2.1
              hrec hdirs1 with ⟨g', hg', hdirs', hrel'⟩
          refine ⟨g', ?_, hdirs', filesRel_trans hrel1 hrel'⟩
          rw [scrap_loop_succ, hg1, ← hps]
          simp [hg']

/-! ## Lemmas about the graph-variant loop -/

theorem gscrap_page_noslash (project outDir : String) (fs : FS) (page : GPage)
    (h : (splitSlash project.data).length ≠ 2) :
    gscrap_page project outDir fs page = (fs, .crashNoRequest) := by
  unfold gscrap_page
  rcases hs : splitSlash project.data with _ | ⟨a, _ | ⟨b, _ | ⟨c, rest⟩⟩⟩
  · rfl
  · rfl
  · exact absurd (by rw [hs]; rfl) h
  · rfl

theorem gscrap_page_write (project outDir : String) (fs : FS) (page : GPage)
    (ow nm : List Char) (hsplit : splitSlash project.data = [ow, nm])
    (hok : (write_items outDir graph_sub graph_rec fs page.edges).2 = true) :
    gscrap_page project outDir fs page =
      ((write_items outDir graph_sub graph_rec fs page.edges).1,
        if page.hasNextPage then .next page.endCursor else .stop) := by
  unfold gscrap_page
  rw [hsplit, if_pos hok]

theorem gscrap_page_requested (project outDir : String) (fs : FS) (page : GPage)
    (ow nm : List Char) (hsplit : splitSlash project.data = [ow, nm]) :
    (gscrap_page project outDir fs page).2 ≠ .crashNoRequest := by
  unfold gscrap_page
  rw [hsplit]
  by_cases hw : (write_items outDir graph_sub graph_rec fs page.edges).2 = true
  · rw [if_pos hw]
    cases hnp : page.hasNextPage <;> simp
  · rw [if_neg hw]
    simp

theorem gscrap_page_dirs_mono (project outDir : String) (fs : FS) (page : GPage)
    (q : Path) (hq : fs.dirs q = true) :
    ((gscrap_page project outDir fs page).1).dirs q = true := by
  unfold gscrap_page
  rcases hs : splitSlash project.data with _ | ⟨a, _ | ⟨b, _ | ⟨c, rest⟩⟩⟩
  · exact hq
  · exact hq
  · by_cases hw : (write_items outDir graph_sub graph_rec fs page.edges).2 = true
    · rw [if_pos hw]
      exact write_items_dirs_mono outDir graph_sub graph_rec page.edges fs q hq
    · rw [if_neg hw]
      exact write_items_dirs_mono outDir graph_sub graph_rec page.edges fs q hq
  · exact hq

theorem gscrap_page_sim (project outDir : String) (fs g : FS) (page : GPage)
    (fs1 : FS) (st : GStep) (h : gscrap_page project outDir fs page = (fs1, st))
    (hst1 : st ≠ .crashNoRequest) (hst2 : st ≠ .crashAfter)
    (hdirs : ∀ q, fs.dirs q = true → g.dirs q = true) :
    ∃ g1, gscrap_page project outDir g page = (g1, st) ∧
      (∀ q, fs1.dirs q = true → g1.dirs q = true) ∧ FilesRel fs g fs1 g1 := by
  unfold gscrap_page at h ⊢
  rcases hs : splitSlash project.data with _ | ⟨a, _ | ⟨b, _ | ⟨c, rest⟩⟩⟩
  · rw [hs] at h
    exact absurd (congrArg Prod.snd h).symm hst1
  · rw [hs] at h
    exact absurd (congrArg Prod.snd h).symm hst1
  · rw [hs] at h
    by_cases hw : (write_items outDir graph_sub graph_rec fs page.edges).2 = true
    · rw [if_pos hw] at h
      rcases write_items_sim outDir graph_sub graph_rec page.edges fs g hw hdirs with
        ⟨hok', hdirs', hrel'⟩
      rw [if_pos hok']
      obtain ⟨rfl, rfl⟩ :
          (write_items outDir graph_sub graph_rec fs page.edges).1 = fs1 ∧
            (if page.hasNextPage then GStep.next page.endCursor else .stop) = st := by
        constructor <;> [exact congrArg Prod.fst h; exact congrArg Prod.snd h]
      exact ⟨(write_items outDir graph_sub graph_rec g page.edges).1, rfl, hdirs', hrel'⟩
    · rw [if_neg hw] at h
      exact absurd (congrArg Prod.snd h).symm hst2
  · rw [hs] at h
    exact absurd (congrArg Prod.snd h).symm hst1

theorem gscrap_loop_succ (project outDir : String) (pages : Option String → GPage)
    (fuel : Nat) (cursor : Option String) (fs : FS) :
    gscrap_loop project outDir pages (fuel + 1) cursor fs =
      match gscrap_page project outDir fs (pages cursor) with
      | (fs1, .crashNoRequest) => (fs1, [], .crashed)
      | (fs1, .crashAfter) => (fs1, [cursor], .crashed)
      | (fs1, .stop) => (fs1, [cursor], .normal)
      | (fs1, .next c) =>
          let r := gscrap_loop project outDir pages fuel (some c) fs1
          (r.1, cursor :: r.2.1, r.2.2) := rfl

theorem gscrap_loop_head (project outDir : String) (pages : Option String → GPage)
    (fuel : Nat) (cursor : Option String) (fs : FS)
    (ow nm : List Char) (hsplit : splitSlash project.data = [ow, nm]) :
    ((gscrap_loop project outDir pages (fuel + 1) cursor fs).2.1).head? = some cursor := by
  rw [gscrap_loop_succ]
  rcases hsp : gscrap_page project outDir fs (pages cursor) with ⟨fs1, st⟩
  cases st with
  | crashNoRequest =>
      have hreq := gscrap_page_requested project outDir fs (pages cursor) ow nm hsplit
      rw [hsp] at hreq
      exact absurd rfl hreq
  | crashAfter => rfl
  | stop => rfl
  | next c => rfl

theorem gscrap_loop_dirs_mono (project outDir : String) (pages : Option String → GPage) :
    ∀ (fuel : Nat) (cursor : Option String) (fs : FS) (q : Path), fs.dirs q = true →
      ((gscrap_loop project outDir pages fuel cursor fs).1).dirs q = true := by
  intro fuel
  induction fuel with
  | zero => intro cursor fs q hq; exact hq
  | succ fuel ih =>
      intro cursor fs q hq
      rw [gscrap_loop_succ]
      rcases hsp : gscrap_page project outDir fs (pages cursor) with ⟨fs1, st⟩
      have h1 : fs1.dirs q = true := by
        have h2 := gscrap_page_dirs_mono project outDir fs (pages cursor) q hq
        rw [hsp] at h2
        exact h2
      cases st with
      | crashNoRequest => exact h1
      | crashAfter => exact h1
      | stop => exact h1
      | next c => exact ih (some c) fs1 q h1

theorem gscrap_loop_sim (project outDir : String) (pages : Option String → GPage) :
    ∀ (fuel : Nat) (cursor : Option String) (fs g fs' : FS) (cs : List (Option String)),
      gscrap_loop project outDir pages fuel cursor fs = (fs', cs, .normal) →
      (∀ q, fs.dirs q = true → g.dirs q = true) →
      ∃ g', gscrap_loop project outDir pages fuel cursor g = (g', cs, .normal) ∧
        (∀ q, fs'.dirs q = true → g'.dirs q = true) ∧ FilesRel fs g fs' g' := by
  intro fuel
  induction fuel with
  | zero =>
      intro cursor fs g fs' cs h _
      exact absurd (congrArg (fun x => x.2.2) h) (by simp [gscrap_loop])
  | succ fuel ih =>
      intro cursor fs g fs' cs h hdirs
      rw [gscrap_loop_succ] at h
      rcases hsp : gscrap_page project outDir fs (pages cursor) with ⟨fs1, st⟩
      rw [hsp] at h
      cases st with
      | crashNoRequest => exact absurd (congrArg (fun x => x.2.2) h) (by simp)
      | crashAfter => exact absurd (congrArg (fun x => x.2.2) h) (by simp)
      | stop =>
          rcases gscrap_page_sim project outDir fs g (pages cursor) fs1 .stop hsp
              (by simp) (by simp) hdirs with ⟨g1, hg1, hdirs1, hrel1⟩
          obtain ⟨rfl, rfl⟩ : fs1 = fs' ∧ [cursor] = cs := by
            constructor <;> [exact congrArg Prod.fst h;
              exact congrArg (fun x => x.2.1) h]
          exact ⟨g1, by rw [gscrap_loop_succ, hg1], hdirs1, hrel1⟩
      | next c =>
          rcases gscrap_page_sim project outDir fs g (pages cursor) fs1 (.next c) hsp
              (by simp) (by simp) hdirs with ⟨g1, hg1, hdirs1, hrel1⟩
          have hfs' : (gscrap_loop project outDir pages fuel (some c) fs1).1 = fs' :=
            congrArg Prod.fst h
          have hcs : cursor :: (gscrap_loop project outDir pages fuel (some c) fs1).2.1 = cs :=
            congrArg (fun x => x.2.1) h
          have hex : (gscrap_loop project outDir pages fuel (some c) fs1).2.2 = .normal :=
            congrArg (fun x => x.2.2) h
          have hrec : gscrap_loop project outDir pages fuel (some c) fs1 =
              (fs', (gscrap_loop project outDir pages fuel (some c) fs1).2.1, .normal) := by
            rw [← hfs', ← hex]
          rcases ih (some c) fs1 g1 fs'
              (gscrap_loop project outDir pages fuel (some c) fs1).2.1 hrec hdirs1 with
            ⟨g', hg', hdirs', hrel'⟩
          refine ⟨g', ?_, hdirs', filesRel_trans hrel1 hrel'⟩
          rw [gscrap_loop_succ, hg1, ← hcs]
          simp [hg']

/-! ## Miscellaneous helper lemmas -/

theorem splitSlash_length (cs : List Char) :
    (splitSlash cs).length = countSlash cs + 1 := by
  induction cs with
  | nil => rfl
  | cons c cs ih =>
      by_cases h : c = '/'
      · simp [splitSlash, countSlash, h, ih]
        omega
      · simp only [splitSlash, countSlash, if_neg h]
        rcases hs : splitSlash cs with _ | ⟨p, ps⟩
        · rw [hs] at ih
          simp at ih
        · rw [hs] at ih
          simp only [List.length_cons] at ih ⊢
          omega

theorem matchRelative_unit_mem (units : List Char) (s : String) (v : Nat) (u : Char)
    (h : matchRelative units s = some (v, u)) : u ∈ units := by
  unfold matchRelative at h
  rcases hrev : s.data.reverse with _ | ⟨u0, rds⟩
  · rw [hrev] at h
    simp only [matchRelAux] at h
    exact absurd h (by simp)
  · rw [hrev] at h
    simp only [matchRelAux] at h
    by_cases hc : u0 ∈ units ∧ rds ≠ [] ∧ rds.all Char.isDigit = true
    · rw [if_pos hc] at h
      simp only [Option.some.injEq, Prod.mk.injEq] at h
      obtain ⟨_, h2⟩ := h
      subst h2
      exact hc.1
    · rw [if_neg hc] at h
      exact absurd h (by simp)

theorem lookupKey_setKey (dct : Item) (k : String) (v : Json) :
    lookupKey k (setKey dct k v) = some v := by
  induction dct with
  | nil => simp [setKey, lookupKey]
  | cons p rest ih =>
      rcases p with ⟨k', v'⟩
      by_cases h : k' = k
      · simp [setKey, lookupKey, h]
      · simp [setKey, lookupKey, h, ih]

/-! ## Concrete fixtures used by the witnesses -/

/-- A filesystem holding just the output directory `out` and no files. -/
def exFS : FS :=
  ⟨fun q => decide (q = ["out"]), fun _ => none⟩

/-- A minimal well-formed issue record with the given number. -/
def exItem (i : Nat) : Item :=
  [("number", Json.num (Int.ofNat i)), ("title", Json.str "t")]

/-- The pull-request record of the spec's end-to-end example. -/
def exPull : Item :=
  [("number", Json.num 7), ("title", Json.str "Fix bug"), ("pull_request", Json.obj [])]

/-! ## Claim theorems -/

/-- C9: in both variants of `parse_since` the `raise NotImplementedError`
branch is unreachable — every unit letter the variant's relative
pattern can capture is handled by one of the preceding unit cases, so
`parse_since` never raises `NotImplementedError` on any input. -/
theorem parse_since_never_notimpl (fromiso : String → Option Int) (now : Int)
    (s : String) :
    list_parse_since fromiso now s ≠ .notImpl ∧
    graph_parse_since fromiso now s ≠ .notImpl := by
  constructor
  · unfold list_parse_since
    rcases hf : fromiso s with _ | t
    · rcases hm : matchRelative unitsList s with _ | ⟨v, u⟩
      · simp
      · have hu := matchRelative_unit_mem unitsList s v u hm
        simp only [unitsList, List.mem_cons, List.not_mem_nil, or_false] at hu
        rcases hu with h | h | h | h <;> subst h <;> simp
    · simp
  · unfold graph_parse_since
    rcases hf : fromiso s with _ | t
    · rcases hm : matchRelative unitsGraph s with _ | ⟨v, u⟩
      · simp
      · have hu := matchRelative_unit_mem unitsGraph s v u hm
        simp only [unitsGraph, List.mem_cons, List.not_mem_nil, or_false] at hu
        rcases hu with h | h | h <;> subst h <;> simp
    · simp

/-- Witness for C9 at a concrete matching input: `"5w"` takes the
weeks branch, not the `NotImplementedError` branch. -/
theorem parse_since_never_notimpl_witness :
    list_parse_since (fun _ => none) 0 "5w" = .ok (0 - (5 : Int) * WEEK) ∧
    list_parse_since (fun _ => none) 0 "5w" ≠ .notImpl ∧
    graph_parse_since (fun _ => none) 0 "5w" ≠ .notImpl :=
  ⟨by decide, (parse_since_never_notimpl (fun _ => none) 0 "5w").1,
    (parse_since_never_notimpl (fun _ => none) 0 "5w").2⟩

/-- The single combined pattern `^(\d+)([wdhHM])$` that claim C3
attributes to the time-spec parser. -/
def claimUnits : List Char := ['w', 'd', 'h', 'H', 'M']

/-- The unit duration (in minutes) a unit letter names; `h` and `H`
both read as hours, `M` as minutes. -/
def unitMinutes (u : Char) : Int :=
  if u = 'w' then WEEK
  else if u = 'd' then DAY
  else if u = 'h' ∨ u = 'H' then HOUR
  else MINUTE

/-- The relative-pattern half of claim C3 as stated, for one parser:
every input that fails the absolute parse and matches `^(\d+)([wdhHM])$`
yields `now() - value * unit_duration`. -/
def timeSpecClaim (p : (String → Option Int) → Int → String → SinceResult) : Prop :=
  ∀ (fromiso : String → Option Int) (now : Int) (s : String),
    fromiso s = none →
    ∀ (v : Nat) (u : Char), matchRelative claimUnits s = some (v, u) →
      p fromiso now s = .ok (now - (v : Int) * unitMinutes u)

/-- C3 counterexample: `"1h"` matches the claimed pattern
`^(\d+)([wdhHM])$` but not the list variant's actual pattern
`(\d+)([wdHM])` (no lowercase `h`), so the list variant's `parse_since`
exits with an error on `"1h"` instead of returning `now - 60` minutes.
The claim's single-pattern description fits neither variant (the graph
variant's pattern `(\d+)([wdh])` likewise rejects `"1H"` and `"5M"`). -/
theorem parse_since_pattern_counterexample :
    ¬ (timeSpecClaim list_parse_since ∧ timeSpecClaim graph_parse_since) := by
  intro hcl
  have h := hcl.1 (fun _ => none) 0 "1h" rfl 1 'h' (by decide)
  exact absurd h (by decide)

/-- C3 (amended): success path of the time-spec parsers.  Both variants
first attempt the absolute parse and return its instant on success; on
failure the list variant matches `^(\d+)([wdHM])$` (weeks, days, hours
as `H`, minutes as `M`) and the graph variant matches `^(\d+)([wdh])$`
(weeks, days, hours), and on a match each returns
`now() - value * unit_duration`. -/
theorem parse_since_success_path (fromiso : String → Option Int) (now : Int)
    (s : String) :
    (∀ t, fromiso s = some t →
      list_parse_since fromiso now s = .ok t ∧
      graph_parse_since fromiso now s = .ok t) ∧
    (fromiso s = none → ∀ (v : Nat) (u : Char),
      matchRelative unitsList s = some (v, u) →
      list_parse_since fromiso now s = .ok (now - (v : Int) * unitMinutes u)) ∧
    (fromiso s = none → ∀ (v : Nat) (u : Char),
      matchRelative unitsGraph s = some (v, u) →
      graph_parse_since fromiso now s = .ok (now - (v : Int) * unitMinutes u)) := by
  refine ⟨?_, ?_, ?_⟩
  · intro t ht
    unfold list_parse_since graph_parse_since
    rw [ht]
    exact ⟨rfl, rfl⟩
  · intro hf v u hm
    unfold list_parse_since
    rw [hf, hm]
    have hu := matchRelative_unit_mem unitsList s v u hm
    simp only [unitsList, List.mem_cons, List.not_mem_nil, or_false] at hu
    rcases hu with h | h | h | h <;> subst h <;>
      simp [unitMinutes, WEEK, DAY, HOUR, MINUTE]
  · intro hf v u hm
    unfold graph_parse_since
    rw [hf, hm]
    have hu := matchRelative_unit_mem unitsGraph s v u hm
    simp only [unitsGraph, List.mem_cons, List.not_mem_nil, or_false] at hu
    rcases hu with h | h | h <;> subst h <;>
      simp [unitMinutes, WEEK, DAY, HOUR, MINUTE]

/-- Witness for the amended C3 at concrete inputs. -/
theorem parse_since_success_path_witness :
    list_parse_since (fun _ => none) 0 "3d" = .ok (0 - (3 : Int) * unitMinutes 'd') ∧
    graph_parse_since (fun _ => none) 0 "2h" = .ok (0 - (2 : Int) * unitMinutes 'h') ∧
    list_parse_since (fun s => if s = "2020-01-01" then some 42 else none) 0
        "2020-01-01" = .ok 42 := by
  refine ⟨?_, ?_, ?_⟩
  · exact (parse_since_success_path (fun _ => none) 0 "3d").2.1 rfl 3 'd' (by decide)
  · exact (parse_since_success_path (fun _ => none) 0 "2h").2.2 rfl 2 'h' (by decide)
  · exact ((parse_since_success_path (fun s => if s = "2020-01-01" then some 42 else none)
      0 "2020-01-01").1 42 (by decide)).1

/-- The ordering half of claim C4, as stated: a graph-variant run with
the token absent has constructed the network client by the time the
token check fails. -/
def graphDefersTokenCheck : Prop :=
  ∀ (project outDirStr : String) (sinceArg : Option String)
    (fromiso : String → Option Int) (now : Int),
    Ev.clientConstructed ∈ (graph_main "" project outDirStr true sinceArg fromiso now).1

/-- C4 counterexample: with the token unset the graph variant logs an
error and returns 1 from `main` (`__main__.py:198`–`201`) without ever
reaching `create_client` (line 203) — no client is constructed, so the
check is not deferred until after client construction. -/
theorem token_check_order_counterexample : ¬ graphDefersTokenCheck := by
  intro h
  have h2 := h "o/r" "out" none (fun _ => none) 0
  revert h2
  decide

/-- C4 (amended): in both variants the absence of the bearer token is a
fatal startup error (non-zero exit with a message) before any network
request, and in both variants the check precedes client construction —
the graph variant merely defers it past the output-directory check and
logger setup, but still performs it before `create_client`. -/
theorem token_missing_fatal (project outDirStr : String) (dirOk : Bool)
    (sinceArg : Option String) (fromiso : String → Option Int) (now : Int) :
    list_main "" project outDirStr dirOk sinceArg fromiso now =
      ([], .exit "You must define the $GITHUB_TOKEN environment variable") ∧
    (dirOk = true →
      graph_main "" project outDirStr dirOk sinceArg fromiso now =
        ([], .errorRet 1 "$GITHUB_TOKEN environment variable not set")) ∧
    (dirOk = false →
      graph_main "" project outDirStr dirOk sinceArg fromiso now =
        ([], .exit (outDirStr ++ " is not a directory"))) := by
  refine ⟨?_, ?_, ?_⟩
  · unfold list_main
    rw [if_pos rfl]
  · intro hd
    unfold graph_main
    rw [hd]
    simp
  · intro hd
    unfold graph_main
    rw [hd]
    simp

/-- Witness for the amended C4 at concrete inputs. -/
theorem token_missing_fatal_witness :
    graph_main "" "o/r" "out" true none (fun _ => none) 0 =
      ([], .errorRet 1 "$GITHUB_TOKEN environment variable not set") ∧
    list_main "" "o/r" "out" true none (fun _ => none) 0 =
      ([], .exit "You must define the $GITHUB_TOKEN environment variable") := by
  refine ⟨?_, ?_⟩
  · exact (token_missing_fatal "o/r" "out" true none (fun _ => none) 0).2.1 rfl
  · exact (token_missing_fatal "o/r" "out" true none (fun _ => none) 0).1

/-- Claim C5 as stated: every `--since` string rejected both by the
absolute parse and by the relative patterns makes both variants abort
without reaching the scrape. -/
def invalidSinceAborts : Prop :=
  ∀ (fromiso : String → Option Int) (now : Int) (s : String),
    fromiso s = none →
    matchRelative unitsList s = none →
    matchRelative unitsGraph s = none →
    ∀ (token project outDirStr : String), token ≠ "" →
      (∀ t, (list_main token project outDirStr true (some s) fromiso now).2 ≠ .scrape t) ∧
      (∀ t, (graph_main token project outDirStr true (some s) fromiso now).2 ≠ .scrape t)

/-- C5 counterexample: the empty string parses neither as an absolute
timestamp (`fromisoformat("")` raises `ValueError`) nor as either
relative pattern, yet `--since ""` does not abort: `if args.since:` is
falsy on `""`, so both variants proceed to scrape with no filter. -/
theorem invalid_since_counterexample : ¬ invalidSinceAborts := by
  intro h
  have h2 := (h (fun _ => none) 0 "" rfl (by decide) (by decide) "tok" "o/r" "out"
    (by decide)).1 none
  revert h2
  decide

/-- C5 (amended): for every non-empty `--since` string rejected by the
absolute parse and by the variant's relative pattern, both variants
abort immediately via `sys.exit` with the message naming the invalid
string, exiting non-zero without reaching the scrape — no request is
issued and no file is written (the graph variant has constructed its
client by then, the list variant has not).  An empty `--since` string
is instead falsy and is treated like an absent flag: scraping proceeds
with no `since` filter. -/
theorem invalid_since_aborts (token project outDirStr s : String)
    (fromiso : String → Option Int) (now : Int)
    (htok : token ≠ "") (hs : s ≠ "") (hiso : fromiso s = none)
    (hl : matchRelative unitsList s = none)
    (hg : matchRelative unitsGraph s = none) :
    list_main token project outDirStr true (some s) fromiso now =
      ([], .exit (invalidDateMsg s)) ∧
    graph_main token project outDirStr true (some s) fromiso now =
      ([.clientConstructed], .exit (invalidDateMsg s)) ∧
    Ev.scrapCalled ∉ (list_main token project outDirStr true (some s) fromiso now).1 ∧
    Ev.scrapCalled ∉ (graph_main token project outDirStr true (some s) fromiso now).1 ∧
    (list_main token project outDirStr true (some "") fromiso now).2 = .scrape none ∧
    (graph_main token project outDirStr true (some "") fromiso now).2 = .scrape none := by
  have hps : list_parse_since fromiso now s = .exitErr (invalidDateMsg s) := by
    unfold list_parse_since
    rw [hiso, hl]
  have hpg : graph_parse_since fromiso now s = .exitErr (invalidDateMsg s) := by
    unfold graph_parse_since
    rw [hiso, hg]
  have h1 : list_main token project outDirStr true (some s) fromiso now =
      ([], .exit (invalidDateMsg s)) := by
    unfold list_main
    rw [if_neg htok, if_neg (by simp)]
    dsimp only
    rw [if_neg hs, hps]
  have h2 : graph_main token project outDirStr true (some s) fromiso now =
      ([.clientConstructed], .exit (invalidDateMsg s)) := by
    unfold graph_main
    rw [if_neg (by simp), if_neg htok]
    dsimp only
    rw [if_neg hs, hpg]
  refine ⟨h1, h2, ?_, ?_, ?_, ?_⟩
  · rw [h1]; simp
  · rw [h2]; simp
  · unfold list_main
    rw [if_neg htok, if_neg (by simp)]
    simp
  · unfold graph_main
    rw [if_neg (by simp), if_neg htok]
    simp

/-- Witness for the amended C5 at concrete inputs. -/
theorem invalid_since_aborts_witness :
    list_main "tok" "o/r" "out" true (some "xyz") (fun _ => none) 0 =
      ([], .exit (invalidDateMsg "xyz")) ∧
    graph_main "tok" "o/r" "out" true (some "xyz") (fun _ => none) 0 =
      ([.clientConstructed], .exit (invalidDateMsg "xyz")) := by
  have h := invalid_since_aborts "tok" "o/r" "out" "xyz" (fun _ => none) 0
    (by decide) (by decide) rfl (by decide) (by decide)
  exact ⟨h.1, h.2.1⟩

/-- C10: neither variant validates the `owner/repo` shape at startup
(both `main` models are independent of the project string and never
exit because of it), and in the graph variant a project string without
exactly one `/` makes `scrap_page` raise on the unpacking
`owner, name = info.project.split("/")` at its first invocation —
after client construction but before the request is issued and with no
file written: the filesystem is returned unchanged and the
requested-cursor list of the run is empty. -/
theorem project_shape_unvalidated (project project2 token outDirStr outDir : String)
    (dirOk : Bool) (sinceArg : Option String) (fromiso : String → Option Int)
    (now : Int) (fs : FS) (page : GPage) (pages : Option String → GPage)
    (cursor : Option String) (fuel : Nat)
    (hp : countSlash project.data ≠ 1) :
    gscrap_page project outDir fs page = (fs, .crashNoRequest) ∧
    gscrap_loop project outDir pages (fuel + 1) cursor fs = (fs, [], .crashed) ∧
    graph_main token project outDirStr dirOk sinceArg fromiso now =
      graph_main token project2 outDirStr dirOk sinceArg fromiso now ∧
    list_main token project outDirStr dirOk sinceArg fromiso now =
      list_main token project2 outDirStr dirOk sinceArg fromiso now := by
  have hlen : (splitSlash project.data).length ≠ 2 := by
    rw [splitSlash_length]
    omega
  refine ⟨gscrap_page_noslash project outDir fs page hlen, ?_, rfl, rfl⟩
  rw [gscrap_loop_succ, gscrap_page_noslash project outDir fs (pages cursor) hlen]

/-- Witness for C10 at a concrete slash-free project string. -/
theorem project_shape_unvalidated_witness :
    gscrap_page "noslash" "out" exFS ⟨[], false, "c"⟩ = (exFS, .crashNoRequest) ∧
    gscrap_loop "noslash" "out" (fun _ => ⟨[], false, "c"⟩) 1 none exFS =
      (exFS, [], .crashed) := by
  have h := project_shape_unvalidated "noslash" "o/r" "tok" "out" "out" true none
    (fun _ => none) 0 exFS ⟨[], false, "c"⟩ (fun _ => ⟨[], false, "c"⟩) none 0
    (by decide)
  exact ⟨h.1, h.2.1⟩

/-- Rebuild a pair whose second component is known to be `true`. -/
theorem pair_eta_true {α : Type} {w : α × Bool} (h : w.2 = true) : w = (w.1, true) := by
  rw [← h]

/-- C1: the list-variant continuation rule.  An empty page stops the
loop with nothing written and no further request; a non-empty page has
its items written, and the loop stops when the page is shorter than
`PAGE_SIZE` (100) while a page of exactly `PAGE_SIZE` items issues
exactly one further request, for the next page index — so the two
requested pages are `p` and `p + 1`. -/
theorem list_continuation_rule (outDir : String) (pages : Nat → List Item) (fs : FS)
    (p fuel : Nat) :
    (pages p = [] →
      scrap_loop outDir pages (fuel + 1 + 1) p fs = (fs, [p], .normal)) ∧
    (∀ fs1, pages p ≠ [] →
      write_items outDir list_sub id fs (pages p) = (fs1, true) →
      ((pages p).length < PAGE_SIZE →
        scrap_loop outDir pages (fuel + 1 + 1) p fs = (fs1, [p], .normal)) ∧
      ((pages p).length = PAGE_SIZE →
        scrap_loop outDir pages (fuel + 1 + 1) p fs =
          ((scrap_loop outDir pages (fuel + 1) (p + 1) fs1).1,
            p :: (scrap_loop outDir pages (fuel + 1) (p + 1) fs1).2.1,
            (scrap_loop outDir pages (fuel + 1) (p + 1) fs1).2.2) ∧
        (scrap_loop outDir pages (fuel + 1 + 1) p fs).2.1.take 2 = [p, p + 1])) := by
  constructor
  · intro hemp
    rw [scrap_loop_succ, hemp, scrap_page_empty]
  · intro fs1 hne hw
    have hok : (write_items outDir list_sub id fs (pages p)).2 = true := by rw [hw]
    have hw1 : (write_items outDir list_sub id fs (pages p)).1 = fs1 := by rw [hw]
    have hsp := scrap_page_write outDir fs (pages p) hne hok
    constructor
    · intro hlt
      have hdec : decide ((pages p).length = PAGE_SIZE) = false :=
        decide_eq_false (Nat.ne_of_lt hlt)
      rw [scrap_loop_succ, hsp, hdec, hw1]
    · intro hlen
      have hdec : decide ((pages p).length = PAGE_SIZE) = true :=
        decide_eq_true hlen
      have heq : scrap_loop outDir pages (fuel + 1 + 1) p fs =
          ((scrap_loop outDir pages (fuel + 1) (p + 1) fs1).1,
            p :: (scrap_loop outDir pages (fuel + 1) (p + 1) fs1).2.1,
            (scrap_loop outDir pages (fuel + 1) (p + 1) fs1).2.2) := by
        rw [scrap_loop_succ, hsp, hdec, hw1]
      refine ⟨heq, ?_⟩
      rw [heq]
      have hhead := scrap_loop_head outDir pages fuel (p + 1) fs1
      rcases hlist : (scrap_loop outDir pages (fuel + 1) (p + 1) fs1).2.1 with _ | ⟨q, rest⟩
      · rw [hlist] at hhead
        simp at hhead
      · rw [hlist] at hhead
        simp only [List.head?_cons, Option.some.injEq] at hhead
        subst hhead
        simp

/-- Pages for the C1 witness: page 1 holds exactly 100 items. -/
def pages100 : Nat → List Item :=
  fun p => if p = 1 then (List.range 100).map exItem else []

/-- Pages for the C1 witness: page 1 holds 99 items. -/
def pages99 : Nat → List Item :=
  fun p => if p = 1 then (List.range 99).map exItem else []

/-- Witness for C1: an empty first page requests only page 1; a full
first page of 100 items requests pages 1 and 2; a first page of 99
items requests only page 1. -/
theorem list_continuation_rule_witness :
    (scrap_loop "out" (fun _ => []) 2 1 exFS).2.1 = [1] ∧
    (scrap_loop "out" pages100 2 1 exFS).2.1.take 2 = [1, 2] ∧
    (scrap_loop "out" pages99 2 1 exFS).2.1 = [1] := by
  refine ⟨?_, ?_, ?_⟩
  · rw [(list_continuation_rule "out" (fun _ => []) exFS 1 0).1 rfl]
  · have hne : pages100 1 ≠ [] := by
      simp [pages100]
    have hlen : (pages100 1).length = PAGE_SIZE := by
      simp [pages100, PAGE_SIZE]
    exact (((list_continuation_rule "out" pages100 exFS 1 0).2
      ((write_items "out" list_sub id exFS (pages100 1)).1) hne
      (pair_eta_true rfl)).2 hlen).2
  · have hne : pages99 1 ≠ [] := by
      simp [pages99]
    have hlt : (pages99 1).length < PAGE_SIZE := by
      simp [pages99, PAGE_SIZE]
    rw [((list_continuation_rule "out" pages99 exFS 1 0).2
      ((write_items "out" list_sub id exFS (pages99 1)).1) hne
      (pair_eta_true rfl)).1 hlt]

/-- C2: the graph-variant continuation rule.  On every page fetch all
items of the page are written first; if `hasNextPage` is false the loop
terminates right after those writes, and if it is true the next call is
issued with exactly the response's `endCursor` as its cursor.  The
`endCursor` field is never consulted when `hasNextPage` is false (the
page result is the same for any value of it), and the first call of a
run uses the absent cursor. -/
theorem graph_continuation_rule (project outDir : String)
    (pages : Option String → GPage) (fs : FS) (cursor : Option String) (fuel : Nat)
    (ow nm : List Char) (hsplit : splitSlash project.data = [ow, nm]) :
    (∀ fs1, write_items outDir graph_sub graph_rec fs (pages cursor).edges = (fs1, true) →
      ((pages cursor).hasNextPage = false →
        gscrap_loop project outDir pages (fuel + 1) cursor fs =
          (fs1, [cursor], .normal)) ∧
      ((pages cursor).hasNextPage = true →
        gscrap_loop project outDir pages (fuel + 1) cursor fs =
          ((gscrap_loop project outDir pages fuel (some (pages cursor).endCursor) fs1).1,
            cursor ::
              (gscrap_loop project outDir pages fuel (some (pages cursor).endCursor) fs1).2.1,
            (gscrap_loop project outDir pages fuel (some (pages cursor).endCursor) fs1).2.2))) ∧
    (∀ (edges : List Item) (c c' : String) (fs0 : FS),
      gscrap_page project outDir fs0 ⟨edges, false, c⟩ =
        gscrap_page project outDir fs0 ⟨edges, false, c'⟩) ∧
    ((gscrap project outDir pages (fuel + 1) fs).2.1.head? = some none) := by
  refine ⟨?_, ?_, ?_⟩
  · intro fs1 hw
    have hok : (write_items outDir graph_sub graph_rec fs (pages cursor).edges).2 = true := by
      rw [hw]
    have hw1 : (write_items outDir graph_sub graph_rec fs (pages cursor).edges).1 = fs1 := by
      rw [hw]
    constructor
    · intro hnp
      have hpage : gscrap_page project outDir fs (pages cursor) = (fs1, .stop) := by
        rw [gscrap_page_write project outDir fs (pages cursor) ow nm hsplit hok, hw1, hnp]
        simp
      rw [gscrap_loop_succ, hpage]
    · intro hnp
      have hpage : gscrap_page project outDir fs (pages cursor) =
          (fs1, .next (pages cursor).endCursor) := by
        rw [gscrap_page_write project outDir fs (pages cursor) ow nm hsplit hok, hw1, hnp]
        simp
      rw [gscrap_loop_succ, hpage]
  · intro edges c c' fs0
    unfold gscrap_page
    rw [hsplit]
    rfl
  · exact gscrap_loop_head project outDir pages fuel none fs ow nm hsplit

/-- Pages for the C2 witness: the first (cursor-less) call reports a
next page with cursor `c1`; every cursor call is a final page. -/
def gpagesW : Option String → GPage := fun c =>
  match c with
  | none => ⟨[exItem 1], true, "c1"⟩
  | some _ => ⟨[exItem 2], false, "c2"⟩

/-- Witness for C2: a run over `gpagesW` requests the absent cursor and
then exactly `c1`; a run whose first page has `hasNextPage = false`
requests only the absent cursor. -/
theorem graph_continuation_rule_witness :
    (gscrap_loop "o/r" "out" gpagesW 2 none exFS).2.1 = [none, some "c1"] ∧
    (gscrap_loop "o/r" "out" (fun _ => ⟨[exItem 7], false, "x"⟩) 1 none exFS).2.1 =
      [none] := by
  constructor
  · have h := ((graph_continuation_rule "o/r" "out" gpagesW exFS none 1 ['o'] ['r']
      rfl).1 ((write_items "out" graph_sub graph_rec exFS (gpagesW none).edges).1)
      (pair_eta_true rfl)).2 rfl
    rw [h]
    rfl
  · have h := ((graph_continuation_rule "o/r" "out" (fun _ => ⟨[exItem 7], false, "x"⟩)
      exFS none 0 ['o'] ['r'] rfl).1
      ((write_items "out" graph_sub graph_rec exFS [exItem 7]).1)
      (pair_eta_true rfl)).1 rfl
    rw [h]

/-- C6: the list-variant item writer.  A writable item of a
successfully processed page is serialized with `json.dumps(dct,
indent=2, sort_keys=True)` and written to
`out_dir/pulls/{number}.json` when its record has a `"pull_request"`
key and to `out_dir/issues/{number}.json` otherwise, overwriting any
existing file there (the initial filesystem is arbitrary); the category
subdirectory exists afterwards (it is created if absent).  The
hypothesis on the later items says none of them writes the same path
(otherwise last-write-wins). -/
theorem list_item_writer (outDir : String) (fs : FS) (l1 l2 : List Item) (dct : Item)
    (n : Int) (fs1 : FS)
    (hnum : lookupKey "number" dct = some (Json.num n))
    (hw : write_items outDir list_sub id fs (l1 ++ dct :: l2) = (fs1, true))
    (hlast : ∀ d' ∈ l2, planPath outDir list_sub id d' ≠
      some [outDir, list_sub dct, toString n ++ ".json"]) :
    list_sub dct = (if is_pull_request dct then "pulls" else "issues") ∧
    fs1.files [outDir, list_sub dct, toString n ++ ".json"] = some (dumps dct) ∧
    fs1.dirs [outDir, list_sub dct] = true := by
  have hok2 : (write_items outDir list_sub id fs (l1 ++ dct :: l2)).2 = true := by
    rw [hw]
  have h1ok := write_items_prefix_ok outDir list_sub id l1 (dct :: l2) fs hok2
  have happ := write_items_append_ok outDir list_sub id l1 (dct :: l2) fs h1ok
  set f1 := (write_items outDir list_sub id fs l1).1 with hf1
  have htail : write_items outDir list_sub id f1 (dct :: l2) = (fs1, true) := by
    rw [← happ, hw]
  have htail_ok : (write_items outDir list_sub id f1 (dct :: l2)).2 = true := by
    rw [htail]
  have hs := write_items_ok_head outDir list_sub id f1 dct l2 htail_ok
  rcases item_step_ok_core outDir list_sub id f1 dct hs with
    ⟨hdirs, sd, fn, text, hpl, hstep1⟩
  -- identify the plan of `dct` from its `"number"` key
  unfold item_plan at hpl
  dsimp only [id] at hpl
  rw [hnum] at hpl
  rcases ht : lookupKey "title" dct with _ | tv
  · rw [ht] at hpl
    simp at hpl
  · rw [ht] at hpl
    simp only [Prod.mk.injEq, Option.some.injEq] at hpl
    obtain ⟨hsd, hfn, htext⟩ := hpl
    subst hsd
    subst hfn
    subst htext
    have hrest : write_items outDir list_sub id
        (item_step outDir list_sub id f1 dct).1 l2 = (fs1, true) := by
      rw [← write_items_cons_ok outDir list_sub id f1 dct l2 hs, htail]
    have huntouched := write_items_untouched outDir list_sub id l2
      (item_step outDir list_sub id f1 dct).1
      [outDir, list_sub dct, toString n ++ ".json"] hlast
    rw [hrest] at huntouched
    have hdirs2 := write_items_dirs_mono outDir list_sub id l2
      (item_step outDir list_sub id f1 dct).1 [outDir, list_sub dct]
      (by rw [hstep1]; simp [addDir])
    rw [hrest] at hdirs2
    refine ⟨rfl, ?_, hdirs2⟩
    rw [huntouched, hstep1]
    simp [upd]

/-- Witness for C6: the spec's end-to-end example record
`{"number": 7, "title": "Fix bug", "pull_request": {...}}` lands in
`out/pulls/7.json` with its sorted-key 2-space-indented serialization,
and the `pulls` directory exists. -/
theorem list_item_writer_witness :
    ((write_items "out" list_sub id exFS [exPull]).1).files ["out", "pulls", "7.json"] =
      some (dumps exPull) ∧
    ((write_items "out" list_sub id exFS [exPull]).1).dirs ["out", "pulls"] = true := by
  have h := list_item_writer "out" exFS [] [] exPull 7
    ((write_items "out" list_sub id exFS [exPull]).1) rfl (pair_eta_true rfl)
    (by simp)
  exact ⟨h.2.1, h.2.2⟩

/-- C7: the graph-variant item writer.  Every file this writer changes
is under the `issues` category (never `pulls`), and its content is the
serialization of an edge's record stamped with `_format = 2` before
serialization — so every written record contains the key `_format`
with value `2`. -/
theorem graph_item_writer (outDir : String) (fs : FS) (edges : List Item) (p : Path)
    (hch : ((write_items outDir graph_sub graph_rec fs edges).1).files p ≠ fs.files p) :
    (∃ fn, p = [outDir, "issues", fn]) ∧
    ∃ d ∈ edges,
      ((write_items outDir graph_sub graph_rec fs edges).1).files p =
        some (dumps (setKey d FORMAT_KEY (Json.num FORMAT))) ∧
      lookupKey FORMAT_KEY (setKey d FORMAT_KEY (Json.num FORMAT)) =
        some (Json.num 2) := by
  rcases write_items_changed outDir graph_sub graph_rec edges fs p hch with
    ⟨d, hd, sd, fn, text, hpl, hpe, hval⟩
  unfold item_plan at hpl
  dsimp only at hpl
  rcases hn : lookupKey "number" (graph_rec d) with _ | j
  · rw [hn] at hpl
    simp [graph_sub] at hpl
  · rcases j with _ | b | m | s2 | xs | ms
    · rw [hn] at hpl
      simp [graph_sub] at hpl
    · rw [hn] at hpl
      simp [graph_sub] at hpl
    · rw [hn] at hpl
      rcases ht : lookupKey "title" (graph_rec d) with _ | tv
      · rw [ht] at hpl
        simp [graph_sub] at hpl
      · rw [ht] at hpl
        simp only [graph_sub, Prod.mk.injEq, Option.some.injEq] at hpl
        obtain ⟨hsd, _, htext⟩ := hpl
        refine ⟨⟨fn, by rw [hpe, ← hsd]⟩, d, hd, ?_, ?_⟩
        · rw [hval, ← htext]
          rfl
        · have hset := lookupKey_setKey d FORMAT_KEY (Json.num FORMAT)
          exact hset
    · rw [hn] at hpl
      simp [graph_sub] at hpl
    · rw [hn] at hpl
      simp [graph_sub] at hpl
    · rw [hn] at hpl
      simp [graph_sub] at hpl

/-- Witness for C7 on a concrete one-edge page. -/
theorem graph_item_writer_witness :
    (∃ fn, (["out", "issues", "5.json"] : Path) = ["out", "issues", fn]) ∧
    ∃ d ∈ [exItem 5],
      ((write_items "out" graph_sub graph_rec exFS [exItem 5]).1).files
          ["out", "issues", "5.json"] =
        some (dumps (setKey d FORMAT_KEY (Json.num FORMAT))) ∧
      lookupKey FORMAT_KEY (setKey d FORMAT_KEY (Json.num FORMAT)) =
        some (Json.num 2) := by
  apply graph_item_writer "out" exFS [exItem 5] ["out", "issues", "5.json"]
  intro hcontra
  have hval : ((write_items "out" graph_sub graph_rec exFS [exItem 5]).1).files
      ["out", "issues", "5.json"] = some (dumps (graph_rec (exItem 5))) := rfl
  rw [hval] at hcontra
  exact Option.noConfusion hcontra

/-- C8: output determinism / idempotence.  For a fixed configuration
and a fixed family of remote responses, a second run started from the
filesystem a normal first run produced requests the same pages, ends
normally, and leaves the files byte-identical (the serialization is a
function of the record alone and every write is an unconditional
overwrite) — for both variants. -/
theorem scrape_idempotent (outDir project : String) (pages : Nat → List Item)
    (gpages : Option String → GPage) (fuel gfuel : Nat) (fs gfs fs1 gfs1 : FS)
    (ps : List Nat) (cs : List (Option String))
    (h1 : scrap outDir pages fuel fs = (fs1, ps, .normal))
    (h2 : gscrap project outDir gpages gfuel gfs = (gfs1, cs, .normal)) :
    ((scrap outDir pages fuel fs1).1.files = fs1.files ∧
      (scrap outDir pages fuel fs1).2 = (ps, .normal)) ∧
    ((gscrap project outDir gpages gfuel gfs1).1.files = gfs1.files ∧
      (gscrap project outDir gpages gfuel gfs1).2 = (cs, .normal)) := by
  unfold scrap at h1
  unfold gscrap at h2
  constructor
  · have hmono : ∀ q, fs.dirs q = true → fs1.dirs q = true := by
      intro q hq
      have h := scrap_loop_dirs_mono outDir pages fuel 1 fs q hq
      rw [h1] at h
      exact h
    rcases scrap_loop_sim outDir pages fuel 1 fs fs1 fs1 ps h1 hmono with
      ⟨g', hg', _, hrel'⟩
    have hfiles : ∀ q, g'.files q = fs1.files q := by
      intro q
      rcases hrel' q with h | ⟨ha, _⟩
      · exact h
      · exact ha
    constructor
    · rw [show scrap outDir pages fuel fs1 = (g', ps, .normal) from hg']
      funext q
      exact hfiles q
    · rw [show scrap outDir pages fuel fs1 = (g', ps, .normal) from hg']
  · have hmono : ∀ q, gfs.dirs q = true → gfs1.dirs q = true := by
      intro q hq
      have h := gscrap_loop_dirs_mono project outDir gpages gfuel none gfs q hq
      rw [h2] at h
      exact h
    rcases gscrap_loop_sim project outDir gpages gfuel none gfs gfs1 gfs1 cs h2 hmono with
      ⟨g', hg', _, hrel'⟩
    have hfiles : ∀ q, g'.files q = gfs1.files q := by
      intro q
      rcases hrel' q with h | ⟨ha, _⟩
      · exact h
      · exact ha
    constructor
    · rw [show gscrap project outDir gpages gfuel gfs1 = (g', cs, .normal) from hg']
      funext q
      exact hfiles q
    · rw [show gscrap project outDir gpages gfuel gfs1 = (g', cs, .normal) from hg']

/-- Witness for C8 on concrete one-page runs. -/
theorem scrape_idempotent_witness :
    ((scrap "out" (fun _ => []) 1 exFS).1.files = exFS.files ∧
      (scrap "out" (fun _ => []) 1 exFS).2 = ([1], .normal)) ∧
    ((gscrap "o/r" "out" (fun _ => ⟨[], false, "c"⟩) 1 exFS).1.files = exFS.files ∧
      (gscrap "o/r" "out" (fun _ => ⟨[], false, "c"⟩) 1 exFS).2 = ([none], .normal)) :=
  scrape_idempotent "out" "o/r" (fun _ => []) (fun _ => ⟨[], false, "c"⟩) 1 1
    exFS exFS exFS exFS [1] [none] rfl rfl

end GhiScraper
